import Mathlib

/-!
Verification of the daz-web-extract pipeline: a shallow embedding of the
source modules content.py, result.py, fetch_http.py, fetch_trafilatura.py,
fetch_playwright.py and extract.py, together with theorems settling the
frozen claims about the natural-language specification.

External collaborators (lxml's parser, httpx, trafilatura, playwright) are
modelled as environment-supplied outcomes: the parsed element tree, the
downloaded or extracted strings, the HTTP status, and the wall-clock
duration of each tier.  Everything the repository itself computes is
embedded as executable Lean definitions.
-/

namespace DazWebExtract

/-! ## HTML element trees

Model of the transient lxml document: an element node carries a tag, an
attribute list and children; a text node carries a string.  lxml "tail"
text is represented as a text child following the element. -/

inductive Node where
  | el (tag : String) (attrs : List (String × String)) (children : List Node)
  | txt (s : String)

/-! ## Python string primitives

Whitespace handling used by str.strip, str.split and re.sub(r"\s+", " ")
on the ASCII range exercised by the source. -/

def pyIsSpace (c : Char) : Bool :=
  c = ' ' || c = '\t' || c = '\n' || c = '\r' || c = '\x0b' || c = '\x0c'

/-- Python str.strip on a character list: drop leading and trailing whitespace. -/
def stripL (l : List Char) : List Char :=
  ((l.dropWhile pyIsSpace).reverse.dropWhile pyIsSpace).reverse

/-- Python str.strip. -/
def pyStrip (s : String) : String :=
  String.mk (stripL s.data)

/-- State machine for re.sub(r"\s+", " ", s): each maximal run of
whitespace becomes a single space.  The flag records whether the previous
input character was whitespace. -/
def collapseAux : List Char → Bool → List Char
  | [], _ => []
  | c :: rest, pw =>
    if pyIsSpace c then
      if pw then collapseAux rest true
      else ' ' :: collapseAux rest true
    else c :: collapseAux rest false

/-- Python re.sub of one-or-more whitespace with a single space. -/
def pyCollapse (s : String) : String :=
  String.mk (collapseAux s.data false)

/-- Python s.strip() followed by re.sub(r"\s+", " ", s), the two-step
normalisation applied to each candidate block in _collect_blocks. -/
def normalizeText (s : String) : String :=
  pyCollapse (pyStrip s)

/-- Python str.lower restricted to the ASCII range used by the classifier
sets and the JS-required phrases. -/
def pyLower (s : String) : String :=
  String.mk (s.data.map Char.toLower)

/-- Whether the first list is a prefix of the second. -/
def listIsPrefixOf : List Char → List Char → Bool
  | [], _ => true
  | _ :: _, [] => false
  | a :: as, b :: bs => a = b && listIsPrefixOf as bs

/-- Whether the first list occurs contiguously inside the second. -/
def listIsInfixOf (needle : List Char) : List Char → Bool
  | [] => listIsPrefixOf needle []
  | b :: bs => listIsPrefixOf needle (b :: bs) || listIsInfixOf needle bs

/-- Python needle in haystack substring test. -/
def strContains (haystack needle : String) : Bool :=
  listIsInfixOf needle.data haystack.data

/-- Accumulator pass for whitespace splitting: acc holds the current
token's characters in reverse. -/
def splitWsAux : List Char → List Char → List String
  | [], acc => if acc.isEmpty then [] else [String.mk acc.reverse]
  | c :: rest, acc =>
    if pyIsSpace c then
      (if acc.isEmpty then [] else [String.mk acc.reverse]) ++ splitWsAux rest []
    else splitWsAux rest (c :: acc)

/-- Python str.split() with no argument: split on whitespace runs and
discard empty pieces. -/
def pySplitWs (s : String) : List String :=
  splitWsAux s.data []

/-- Python "sep".join(xs). -/
def pyJoin (sep : String) : List String → String
  | [] => ""
  | [x] => x
  | x :: y :: rest => x ++ sep ++ pyJoin sep (y :: rest)

/-! ## content.py: classifier sets and thresholds -/

def NOISE_TAGS : List String :=
  ["script", "style", "nav", "footer", "aside", "header", "noscript",
   "iframe", "form", "svg", "button", "select", "option", "textarea",
   "input", "label", "fieldset", "legend", "dialog", "menu", "menuitem",
   "details", "summary"]

def NOISE_CLASSES : List String :=
  ["ad", "ads", "advert", "advertisement", "banner", "sponsor", "sponsored",
   "promo", "promotion", "sidebar", "widget", "social", "share", "sharing",
   "cookie", "consent", "popup", "modal", "overlay", "newsletter",
   "subscribe", "signup", "sign-up", "cta", "call-to-action",
   "related", "recommended", "trending", "popular", "breadcrumb",
   "pagination", "pager", "toolbar", "tooltip", "dropdown",
   "comment", "comments", "disqus"]

def NOISE_IDS : List String :=
  ["ad", "ads", "sidebar", "cookie-banner", "newsletter",
   "comments", "disqus_thread", "social-share"]

def NOISE_ROLES : List String :=
  ["navigation", "banner", "complementary", "contentinfo", "form",
   "search", "menu", "menubar"]

def CONTENT_TAGS : List String :=
  ["p", "h1", "h2", "h3", "h4", "h5", "h6", "li", "blockquote", "td",
   "th", "figcaption", "pre", "dd"]

def MIN_BLOCK_LENGTH : Nat := 15
def MIN_BODY_LENGTH : Nat := 100

/-! ## content.py: noise removal -/

/-- lxml el.get(name, "") on the attribute list. -/
def attrGet (attrs : List (String × String)) (name : String) : String :=
  match attrs.find? (fun p => p.1 = name) with
  | some p => p.2
  | none => ""

/-- lxml el.get(name) without default: none when the attribute is absent. -/
def attrFind (attrs : List (String × String)) (name : String) : Option String :=
  (attrs.find? (fun p => p.1 = name)).map (fun p => p.2)

/-- content.py _is_noise_element: noise by tag, class token, id or role. -/
def is_noise_element (tag : String) (attrs : List (String × String)) : Bool :=
  NOISE_TAGS.contains tag
  || (pySplitWs (pyLower (attrGet attrs "class"))).any (fun c => NOISE_CLASSES.contains c)
  || NOISE_IDS.contains (pyLower (attrGet attrs "id"))
  || NOISE_ROLES.contains (pyLower (attrGet attrs "role"))

/-- Whether a node survives noise removal when it has a parent: element
children matching a noise rule are detached, text children stay. -/
def keepChild : Node → Bool
  | .el tag attrs _ => !is_noise_element tag attrs
  | .txt _ => true

mutual
/-- content.py _remove_noise.  The source collects every element matched by
the xpath query and detaches it from its parent; an element without a
parent (the root) is left in place, so only children are ever filtered. -/
def remove_noise : Node → Node
  | .txt s => .txt s
  | .el tag attrs children => .el tag attrs (remove_noise_list children)
termination_by structural x => x

def remove_noise_list : List Node → List Node
  | [] => []
  | c :: rest =>
    (if keepChild c then [remove_noise c] else []) ++ remove_noise_list rest
termination_by structural x => x
end

/-! ## content.py: text content and block collection -/

mutual
/-- lxml el.text_content(): concatenation of all descendant text, in
document order, with every tag stripped (anchor text preserved). -/
def textContent : Node → String
  | .txt s => s
  | .el _ _ children => textContentList children
termination_by structural x => x

def textContentList : List Node → String
  | [] => ""
  | c :: rest => textContent c ++ textContentList rest
termination_by structural x => x
end

mutual
/-- content.py _collect_blocks: traverse every element in document order;
for tags in CONTENT_TAGS take the stripped, whitespace-collapsed text
content, keeping only non-empty results. -/
def collect_blocks : Node → List String
  | .txt _ => []
  | .el tag _ children =>
    (if CONTENT_TAGS.contains tag then
      (let t := normalizeText (textContentList children)
       if t = "" then [] else [t])
     else []) ++ collect_blocks_list children
termination_by structural x => x

def collect_blocks_list : List Node → List String
  | [] => []
  | c :: rest => collect_blocks c ++ collect_blocks_list rest
termination_by structural x => x
end

/-- content.py extract_text_content: remove noise, collect blocks, drop
blocks shorter than MIN_BLOCK_LENGTH, join with a blank line, and reject
bodies shorter than MIN_BODY_LENGTH. -/
def extract_text_content (tree : Node) : Option String :=
  let cleaned := remove_noise tree
  let blocks := collect_blocks cleaned
  let filtered := blocks.filter (fun b => MIN_BLOCK_LENGTH ≤ b.length)
  let body := pyJoin "\n\n" filtered
  if body.length < MIN_BODY_LENGTH then none else some body

/-! ## content.py: title extraction -/

def SEP_CHARS : List Char := ['|', '-', '–', '—']

/-- re.sub(TITLE_SUFFIX_RE, "", title) for the anchored pattern of
optional whitespace, one separator, optional whitespace and a non-empty
separator-free run at end of string.  The leftmost match ending at the end
of the string removes everything from the whitespace preceding the last
separator, provided at least one character follows that separator. -/
def title_suffix_sub (title : String) : String :=
  let r := title.data.reverse
  match r.dropWhile (fun c => !SEP_CHARS.contains c) with
  | [] => title
  | _ :: before =>
    if r.takeWhile (fun c => !SEP_CHARS.contains c) = [] then title
    else String.mk ((before.dropWhile pyIsSpace).reverse)

/-- content.py _clean_title_suffix: strip the site-name suffix, falling
back to the original title when the cleaned string strips to empty. -/
def clean_title_suffix (title : String) : String :=
  let cleaned := title_suffix_sub title
  if pyStrip cleaned = "" then title else cleaned

mutual
/-- xpath //meta with property og:title, collecting existing content
attributes in document order. -/
def ogTitleContents : Node → List String
  | .txt _ => []
  | .el tag attrs children =>
    (if tag = "meta" && attrFind attrs "property" = some "og:title" then
      (match attrFind attrs "content" with
       | some v => [v]
       | none => [])
     else []) ++ ogTitleContentsList children
termination_by structural x => x

def ogTitleContentsList : List Node → List String
  | [] => []
  | c :: rest => ogTitleContents c ++ ogTitleContentsList rest
termination_by structural x => x
end

mutual
/-- xpath //title/text(): direct text children of title elements. -/
def titleTexts : Node → List String
  | .txt _ => []
  | .el tag _ children =>
    (if tag = "title" then
      children.filterMap (fun n => match n with | .txt s => some s | _ => none)
     else []) ++ titleTextsList children
termination_by structural x => x

def titleTextsList : List Node → List String
  | [] => []
  | c :: rest => titleTexts c ++ titleTextsList rest
termination_by structural x => x
end

mutual
/-- All descendant text nodes, in document order. -/
def allTexts : Node → List String
  | .txt s => [s]
  | .el _ _ children => allTextsList children
termination_by structural x => x

def allTextsList : List Node → List String
  | [] => []
  | c :: rest => allTexts c ++ allTextsList rest
termination_by structural x => x
end

mutual
/-- xpath //h1//text(): text nodes descending from an h1, each node once
(node-set semantics), in document order. -/
def h1Texts : Node → List String
  | .txt _ => []
  | .el tag _ children =>
    if tag = "h1" then allTextsList children else h1TextsList children
termination_by structural x => x

def h1TextsList : List Node → List String
  | [] => []
  | c :: rest => h1Texts c ++ h1TextsList rest
termination_by structural x => x
end

/-- content.py extract_title: og:title content, else the first title
element's text with the suffix cleaned, else the joined text of h1
descendants, else none. -/
def extract_title (tree : Node) : Option String :=
  let ogStep :=
    match (ogTitleContents tree).head? with
    | some v => if pyStrip v ≠ "" then some (pyStrip v) else none
    | none => none
  match ogStep with
  | some t => some t
  | none =>
    let titleStep :=
      match (titleTexts tree).head? with
      | some raw => if pyStrip raw ≠ "" then some (clean_title_suffix (pyStrip raw)) else none
      | none => none
    match titleStep with
    | some t => some t
    | none =>
      let combined := pyJoin " " (((h1Texts tree).map pyStrip).filter (fun t => t ≠ ""))
      if (h1Texts tree) ≠ [] && combined ≠ "" then some combined else none

/-! ## result.py: the ExtractionResult record -/

structure ExtractionResult where
  success : Bool
  url : String
  title : Option String
  body : Option String
  error : Option String
  fetch_method : Option String
  status_code : Option Nat
  content_length : Nat
  elapsed_ms : Nat
deriving Repr, DecidableEq

/-- result.py make_success. -/
def make_success (url : String) (title : Option String) (body : String)
    (fetch_method : String) (status_code : Option Nat) (elapsed_ms : Nat) :
    ExtractionResult :=
  { success := true
    url := url
    title := title
    body := some body
    error := none
    fetch_method := some fetch_method
    status_code := status_code
    content_length := body.length
    elapsed_ms := elapsed_ms }

/-- result.py make_failure. -/
def make_failure (url : String) (error : String)
    (fetch_method : Option String) (status_code : Option Nat) (elapsed_ms : Nat) :
    ExtractionResult :=
  { success := false
    url := url
    title := none
    body := none
    error := some error
    fetch_method := fetch_method
    status_code := status_code
    content_length := 0
    elapsed_ms := elapsed_ms }

/-! ## Environment: the external collaborators

Each tier's external effect (httpx request, trafilatura download and
extraction, playwright navigation and rendering) is supplied by the
environment, together with the tier's wall-clock duration in
milliseconds.  lxml parse_html is external as well, so responses carry
the parsed tree directly. -/

/-- Outcome of the httpx GET in tier 1: either a raised exception with its
formatted message, or a response with status, content-type header and the
parsed tree of its HTML content. -/
inductive HttpOutcome where
  | exc (msg : String)
  | resp (status : Nat) (contentType : String) (tree : Node)

/-- Outcome of the trafilatura call in tier 2: deadline expiry, a raised
exception, or the downloaded HTML, extracted body and metadata title
(metaTitle is what trafilatura metadata would report when downloaded is
present). -/
inductive TrafOutcome where
  | timeout
  | exc (msg : String)
  | done (downloaded : Option String) (extracted : Option String)
      (metaTitle : Option String)

/-- Outcome of a playwright navigation: a raised exception, or a rendered
page with optional HTTP status, the parsed tree of the rendered DOM, and
what trafilatura.extract would return on the rendered HTML. -/
inductive BrowserOutcome where
  | exc (msg : String)
  | page (status : Option Nat) (tree : Node) (trafBody : Option String)

structure Env where
  http : HttpOutcome
  httpMs : Nat
  traf : TrafOutcome
  trafMs : Nat
  nojs : BrowserOutcome
  nojsMs : Nat
  js : BrowserOutcome
  jsMs : Nat

/-! ## fetch_http.py: tier 1 -/

/-- Modelled from the spec: fetch_http.py line 7 imports extract_body_text
from content, but content.py defines no function of that name (it defines
extract_text_content).  Spec section 4.2 says tier 1 feeds the body to the
HTML extractor, i.e. extract_text_content; the name mismatch itself is
recorded by the import-resolution definitions further below. -/
def extract_body_text (tree : Node) : Option String :=
  extract_text_content tree

/-- fetch_http.py _extract_from_html: parse, extract title and body, and
fail when the body is missing or shorter than 100 characters. -/
def http_extract_from_html (url : String) (tree : Node) (status_code : Nat)
    (elapsed_ms : Nat) : ExtractionResult :=
  let title := extract_title tree
  let body := extract_body_text tree
  match body with
  | none => make_failure url "Body too short" (some "httpx") (some status_code) elapsed_ms
  | some b =>
    if b.length < 100 then
      make_failure url "Body too short" (some "httpx") (some status_code) elapsed_ms
    else
      make_success url title b "httpx" (some status_code) elapsed_ms

/-- fetch_http.py fetch_http: async GET with error, status and
content-type gates before heuristic extraction. -/
def fetch_http (url : String) (env : Env) : ExtractionResult :=
  match env.http with
  | .exc msg => make_failure url msg (some "httpx") none env.httpMs
  | .resp status contentType tree =>
    if 400 ≤ status then
      make_failure url ("HTTP " ++ toString status) (some "httpx") (some status) env.httpMs
    else if !strContains (pyLower contentType) "html" then
      make_failure url ("Non-HTML content type: " ++ contentType) (some "httpx")
        (some status) env.httpMs
    else
      http_extract_from_html url tree status env.httpMs

/-! ## fetch_trafilatura.py: tier 2 -/

/-- fetch_trafilatura.py _extract_title: metadata title when the download
succeeded and the title is truthy. -/
def traf_extract_title (downloaded : Option String) (metaTitle : Option String) :
    Option String :=
  match downloaded with
  | none => none
  | some _ =>
    match metaTitle with
    | some t => if t = "" then none else some t
    | none => none

/-- fetch_trafilatura.py fetch_trafilatura. -/
def fetch_trafilatura (url : String) (env : Env) : ExtractionResult :=
  match env.traf with
  | .timeout => make_failure url "Trafilatura timeout" (some "trafilatura") none env.trafMs
  | .exc msg => make_failure url msg (some "trafilatura") none env.trafMs
  | .done downloaded extracted metaTitle =>
    match extracted with
    | none =>
      make_failure url "Body too short or extraction failed" (some "trafilatura")
        none env.trafMs
    | some b =>
      if b.length < 100 then
        make_failure url "Body too short or extraction failed" (some "trafilatura")
          none env.trafMs
      else
        make_success url (traf_extract_title downloaded metaTitle) b "trafilatura"
          none env.trafMs

/-! ## fetch_playwright.py: tiers 3 and 4 -/

def JS_REQUIRED_PHRASES : List String :=
  ["requires javascript",
   "enable javascript",
   "javascript is required",
   "javascript is disabled",
   "javascript must be enabled",
   "you need to enable javascript",
   "please enable javascript",
   "this site requires javascript",
   "this page requires javascript",
   "this application requires javascript",
   "browser does not support javascript",
   "turn on javascript",
   "activate javascript"]

/-- fetch_playwright.py requires_javascript: a falsy body never needs JS;
otherwise search the lowercased body for any phrase. -/
def requires_javascript (result : ExtractionResult) : Bool :=
  match result.body with
  | none => false
  | some b =>
    if b = "" then false
    else JS_REQUIRED_PHRASES.any (fun phrase => strContains (pyLower b) phrase)

/-- fetch_playwright.py _extract_from_html: trafilatura on the rendered
HTML first, falling back to the in-house extractor, then the 100-character
gate. -/
def pw_extract_from_html (url : String) (tree : Node) (trafBody : Option String)
    (status_code : Option Nat) (elapsed_ms : Nat) (method : String) :
    ExtractionResult :=
  let body0 :=
    match trafBody with
    | some b => if b.length < 100 then extract_text_content tree else some b
    | none => extract_text_content tree
  match body0 with
  | none => make_failure url "Body too short" (some method) status_code elapsed_ms
  | some b =>
    if b.length < 100 then
      make_failure url "Body too short" (some method) status_code elapsed_ms
    else
      make_success url (extract_title tree) b method status_code elapsed_ms

/-- fetch_playwright.py _fetch_page: status gate at 400, then the hybrid
extractor on the rendered DOM. -/
def pw_fetch_page (url : String) (outcome : BrowserOutcome) (elapsed_ms : Nat)
    (method : String) : ExtractionResult :=
  match outcome with
  | .exc msg => make_failure url msg (some method) none elapsed_ms
  | .page status tree trafBody =>
    match status with
    | some c =>
      if 400 ≤ c then
        make_failure url ("HTTP " ++ toString c) (some method) (some c) elapsed_ms
      else
        pw_extract_from_html url tree trafBody (some c) elapsed_ms method
    | none => pw_extract_from_html url tree trafBody none elapsed_ms method

/-- fetch_playwright.py fetch_playwright_nojs: tier 3. -/
def fetch_playwright_nojs (url : String) (env : Env) : ExtractionResult :=
  pw_fetch_page url env.nojs env.nojsMs "playwright-nojs"

/-- fetch_playwright.py fetch_playwright: tier 4. -/
def fetch_playwright (url : String) (env : Env) : ExtractionResult :=
  pw_fetch_page url env.js env.jsMs "playwright"

/-! ## extract.py: the orchestrator -/

/-- extract.py SKIP_TO_TIER3_CODES: set(range(400, 600)) minus 403 and 429. -/
def skip_code (c : Nat) : Bool :=
  (400 ≤ c && c < 600) && !(c = 403 || c = 429)

/-- extract.py _should_skip_to_tier3. -/
def should_skip_to_tier3 (result : ExtractionResult) : Bool :=
  match result.status_code with
  | some c => skip_code c
  | none => false

/-- The tier a result came from, for the instrumented run traces. -/
inductive Tier where
  | t1
  | t2
  | t3
  | t4
deriving Repr, DecidableEq

/-- The wall-clock duration the environment assigns to a tier. -/
def durOf (env : Env) : Tier → Nat
  | .t1 => env.httpMs
  | .t2 => env.trafMs
  | .t3 => env.nojsMs
  | .t4 => env.jsMs

/-- extract.py _run_tier3_and_4, instrumented with the list of browser
tiers invoked.  clockBefore is the time already spent by earlier tiers,
so the synthesised terminal failure's elapsed_ms is measured from the
orchestrator's start. -/
def run_tier3_and_4 (url : String) (env : Env) (clockBefore : Nat)
    (maxTier : Int) : ExtractionResult × List Tier :=
  let tier3_result := fetch_playwright_nojs url env
  if tier3_result.success && !requires_javascript tier3_result then
    (tier3_result, [.t3])
  else if maxTier < 4 then
    (tier3_result, [.t3])
  else
    let tier4_result := fetch_playwright url env
    if tier4_result.success then
      (tier4_result, [.t3, .t4])
    else
      (make_failure url ("All tiers failed: " ++ (tier4_result.error.getD "None"))
        (some "playwright") tier4_result.status_code
        (clockBefore + env.nojsMs + env.jsMs),
       [.t3, .t4])

/-- extract.py extract, instrumented with the list of tiers invoked in
order. -/
def extract_run (url : String) (maxTier : Int) (env : Env) :
    ExtractionResult × List Tier :=
  let tier1_result := fetch_http url env
  if tier1_result.success then
    (tier1_result, [.t1])
  else if maxTier < 2 then
    (tier1_result, [.t1])
  else if should_skip_to_tier3 tier1_result && 3 ≤ maxTier then
    let r := run_tier3_and_4 url env env.httpMs maxTier
    (r.1, .t1 :: r.2)
  else
    let tier2_result := fetch_trafilatura url env
    if tier2_result.success then
      (tier2_result, [.t1, .t2])
    else if maxTier < 3 then
      (tier2_result, [.t1, .t2])
    else
      let r := run_tier3_and_4 url env (env.httpMs + env.trafMs) maxTier
      (r.1, .t1 :: .t2 :: r.2)

/-- extract.py extract: the public entry point (result only). -/
def extract (url : String) (maxTier : Int) (env : Env) : ExtractionResult :=
  (extract_run url maxTier env).1

/-! ## The import surface of content.py

fetch_http.py line 7 names three values to import from
daz_web_extract.content; content.py's module-level definitions are listed
here verbatim so the import can be checked by evaluation. -/

/-- Module-level names defined by content.py. -/
def content_module_names : List String :=
  ["NOISE_TAGS", "NOISE_CLASSES", "NOISE_IDS", "NOISE_ROLES",
   "CONTENT_TAGS", "MIN_BLOCK_LENGTH", "MIN_BODY_LENGTH",
   "TITLE_SUFFIX_RE", "parse_html", "extract_title",
   "_clean_title_suffix", "extract_text_content", "_remove_noise",
   "_is_noise_element", "_collect_blocks"]

/-- Names fetch_http.py line 7 imports from daz_web_extract.content. -/
def fetch_http_content_imports : List String :=
  ["parse_html", "extract_title", "extract_body_text"]

/-- Whether every name fetch_http.py imports from content.py exists
there; Python raises ImportError at module load when this is false. -/
def fetch_http_imports_resolve : Bool :=
  fetch_http_content_imports.all (fun n => content_module_names.contains n)

/-! ## Derived predicates and concrete data used by the theorems -/

/-- The title-suffix pattern of spec section 4.1, matched at end of
string: optional whitespace, one separator, optional whitespace, and a
non-empty run free of separator characters. -/
def PatSuffix (m : List Char) : Prop :=
  ∃ ws1 sep ws2 t, m = ws1 ++ sep :: (ws2 ++ t)
    ∧ (∀ c ∈ ws1, pyIsSpace c = true)
    ∧ sep ∈ SEP_CHARS
    ∧ (∀ c ∈ ws2, pyIsSpace c = true)
    ∧ t ≠ []
    ∧ (∀ c ∈ t, c ∉ SEP_CHARS)

/-- Normal form of a non-empty collected block: it starts and ends with a
non-whitespace character and every whitespace inside it is a single
space.  Exactly the shape produced by strip followed by whitespace
collapse. -/
inductive Chunk : List Char → Prop where
  | one (c : Char) (h : pyIsSpace c = false) : Chunk [c]
  | cons (c : Char) (h : pyIsSpace c = false) (u : List Char) (hu : Chunk u) :
      Chunk (c :: u)
  | consSp (c : Char) (h : pyIsSpace c = false) (u : List Char) (hu : Chunk u) :
      Chunk (c :: ' ' :: u)

/-- List-level counterpart of pyJoin, used by the proofs. -/
def joinL (sep : List Char) : List (List Char) → List Char
  | [] => []
  | [x] => x
  | x :: y :: rest => x ++ sep ++ joinL sep (y :: rest)

/-- The record invariants of spec section 3, as a Boolean check. -/
def resultInvariant (r : ExtractionResult) : Bool :=
  if r.success then
    match r.body with
    | some b =>
      decide (100 ≤ b.length) && decide (r.error = none)
        && decide (r.content_length = b.length)
    | none => false
  else
    decide (r.body = none) && decide (r.title = none)
      && decide (r.content_length = 0) && decide (r.error ≠ none)

/-- A parsed document with no extractable content. -/
def emptyTree : Node := Node.el "html" [] []

/-- The minimal noise-immunity document of spec section 8: one noise
subtree followed by one article paragraph inside body. -/
def noiseDoc (ntag : String) (nattrs : List (String × String))
    (nkids : List Node) (para : String) : Node :=
  Node.el "html" []
    [Node.el "body" []
      [Node.el ntag nattrs nkids,
       Node.el "p" [] [Node.txt para]]]

/-- Re-wrapping of an extracted body for the idempotence law of spec
section 8. -/
def rewrapDoc (b : String) : Node :=
  Node.el "html" [] [Node.el "body" [] [Node.el "p" [] [Node.txt b]]]

/-- The title-cleaning scenario of spec section 8. -/
def exampleTitleDoc : Node :=
  Node.el "html" []
    [Node.el "head" [] [Node.el "title" [] [Node.txt "Article Title | SiteName"]],
     Node.el "body" [] []]

/-- A 120-character paragraph. -/
def zPara : String :=
  "zzzzzzzzzzzzzzzzzzzzzzzzzzzzzzzzzzzzzzzzzzzzzzzzzzzzzzzzzzzzzzzzzzzzzzzzzzzzzzzzzzzzzzzzzzzzzzzzzzzzzzzzzzzzzzzzzzzzzz"

/-- A fragment whose root element itself matches the sidebar noise class. -/
def sidebarDoc : Node :=
  Node.el "div" [("class", "sidebar")] [Node.el "p" [] [Node.txt zPara]]

/-- Two 49-character paragraphs: their extracted body is exactly 100
characters, of which two are the block separator. -/
def c7tree : Node :=
  Node.el "html" []
    [Node.el "body" []
      [Node.el "p" [] [Node.txt "aaaaaaaaaaaaaaaaaaaaaaaaaaaaaaaaaaaaaaaaaaaaaaaaa"],
       Node.el "p" [] [Node.txt "bbbbbbbbbbbbbbbbbbbbbbbbbbbbbbbbbbbbbbbbbbbbbbbbb"]]]

/-- The body extracted from c7tree. -/
def c7body : String :=
  "aaaaaaaaaaaaaaaaaaaaaaaaaaaaaaaaaaaaaaaaaaaaaaaaa\n\nbbbbbbbbbbbbbbbbbbbbbbbbbbbbbbbbbbbbbbbbbbbbbbbbb"

/-- A single-paragraph tree whose extracted body survives re-extraction. -/
def c7treeOk : Node :=
  Node.el "html" []
    [Node.el "body" []
      [Node.el "p" [] [Node.txt zPara]]]

/-- A tier-1 connection failure with every later tier failing too. -/
def envC1 : Env :=
  { http := .exc "ConnectError: boom"
    httpMs := 5
    traf := .timeout
    trafMs := 7
    nojs := .exc "late"
    nojsMs := 11
    js := .exc "later"
    jsMs := 13 }

/-- Tier 1 sees HTTP 404; the remaining tiers fail. -/
def env404 : Env :=
  { http := .resp 404 "text/html" emptyTree
    httpMs := 5
    traf := .done none none none
    trafMs := 7
    nojs := .exc "x"
    nojsMs := 11
    js := .exc "y"
    jsMs := 13 }

/-- Tier 1 sees HTTP 403; the remaining tiers fail. -/
def env403 : Env :=
  { http := .resp 403 "text/html" emptyTree
    httpMs := 5
    traf := .done none none none
    trafMs := 7
    nojs := .exc "x"
    nojsMs := 11
    js := .exc "y"
    jsMs := 13 }

/-- Tier 1 succeeds at the HTTP level but extracts nothing; tier 2 fails. -/
def env9 : Env :=
  { http := .resp 200 "text/html" emptyTree
    httpMs := 5
    traf := .done none none none
    trafMs := 7
    nojs := .exc "x"
    nojsMs := 11
    js := .exc "y"
    jsMs := 13 }

/-- A rendered tier-3 page whose trafilatura body demands JavaScript. -/
def envJS : Env :=
  { http := .exc "ConnectError: boom"
    httpMs := 1
    traf := .done none none none
    trafMs := 2
    nojs := .page (some 200) emptyTree
      (some ("Please enable JavaScript to continue reading this page. aaaaaaaaaaaaaaaaaaaaaaaaaaaaaaaaaaaaaaaaaaaaaaaa"))
    nojsMs := 3
    js := .exc "boom"
    jsMs := 4 }

/-! ## Helper lemmas -/

theorem fetch_http_method (url : String) (env : Env) :
    (fetch_http url env).fetch_method = some "httpx" := by
  unfold fetch_http http_extract_from_html
  cases env.http with
  | exc msg => rfl
  | resp status ct tree =>
    dsimp only
    split
    · rfl
    · split
      · rfl
      · cases extract_body_text tree with
        | none => rfl
        | some b =>
          dsimp only
          split <;> rfl

theorem fetch_trafilatura_method (url : String) (env : Env) :
    (fetch_trafilatura url env).fetch_method = some "trafilatura" := by
  unfold fetch_trafilatura
  cases env.traf with
  | timeout => rfl
  | exc msg => rfl
  | done downloaded extracted metaTitle =>
    cases extracted with
    | none => rfl
    | some b =>
      dsimp only
      split <;> rfl

theorem pw_fetch_page_method (url : String) (oc : BrowserOutcome) (ms : Nat)
    (method : String) :
    (pw_fetch_page url oc ms method).fetch_method = some method := by
  unfold pw_fetch_page pw_extract_from_html
  cases oc with
  | exc msg => rfl
  | page status tree trafBody =>
    dsimp only
    have hbody : ∀ body0 : Option String,
        (match body0 with
          | none => make_failure url "Body too short" (some method) status ms
          | some b =>
            if b.length < 100 then
              make_failure url "Body too short" (some method) status ms
            else
              make_success url (extract_title tree) b method status ms).fetch_method
          = some method := by
      intro body0
      cases body0 with
      | none => rfl
      | some b =>
        dsimp only
        split <;> rfl
    cases status with
    | none => exact hbody _
    | some c =>
      dsimp only
      split
      · rfl
      · exact hbody _

theorem run_tier3_and_4_method (url : String) (env : Env) (cb : Nat)
    (maxTier : Int) :
    (run_tier3_and_4 url env cb maxTier).1.fetch_method = some "playwright-nojs"
    ∨ (run_tier3_and_4 url env cb maxTier).1.fetch_method = some "playwright" := by
  unfold run_tier3_and_4
  dsimp only
  split
  · exact Or.inl (pw_fetch_page_method url env.nojs env.nojsMs "playwright-nojs")
  · split
    · exact Or.inl (pw_fetch_page_method url env.nojs env.nojsMs "playwright-nojs")
    · split
      · exact Or.inr (pw_fetch_page_method url env.js env.jsMs "playwright")
      · exact Or.inr rfl

/-! ## Claim C1 -/

/-- Claim C1 (counterexample): a tier-1 failure carries fetch_method
"httpx", which is not one of the four strings the claim names. -/
theorem c1_counterexample :
    (extract "https://example.com" 1 envC1).fetch_method = some "httpx"
    ∧ (["http", "library", "browser-nojs", "browser"].contains "httpx") = false := by
  constructor
  · rfl
  · rfl

/-- Claim C1 (amended): every result produced by a tier fetcher or by the
top-level extract carries a fetch_method that is one of exactly the four
strings "httpx", "trafilatura", "playwright-nojs", "playwright"; it is
never none. -/
theorem c1_fetch_method_values (url : String) (maxTier : Int) (env : Env) :
    (fetch_http url env).fetch_method = some "httpx"
    ∧ (fetch_trafilatura url env).fetch_method = some "trafilatura"
    ∧ (fetch_playwright_nojs url env).fetch_method = some "playwright-nojs"
    ∧ (fetch_playwright url env).fetch_method = some "playwright"
    ∧ ((extract url maxTier env).fetch_method = some "httpx"
       ∨ (extract url maxTier env).fetch_method = some "trafilatura"
       ∨ (extract url maxTier env).fetch_method = some "playwright-nojs"
       ∨ (extract url maxTier env).fetch_method = some "playwright") := by
  refine ⟨fetch_http_method url env, fetch_trafilatura_method url env,
    pw_fetch_page_method url env.nojs env.nojsMs "playwright-nojs",
    pw_fetch_page_method url env.js env.jsMs "playwright", ?_⟩
  unfold extract extract_run
  dsimp only
  split
  · exact Or.inl (fetch_http_method url env)
  · split
    · exact Or.inl (fetch_http_method url env)
    · split
      · rcases run_tier3_and_4_method url env env.httpMs maxTier with h | h
        · exact Or.inr (Or.inr (Or.inl h))
        · exact Or.inr (Or.inr (Or.inr h))
      · split
        · exact Or.inr (Or.inl (fetch_trafilatura_method url env))
        · split
          · exact Or.inr (Or.inl (fetch_trafilatura_method url env))
          · rcases run_tier3_and_4_method url env (env.httpMs + env.trafMs) maxTier
              with h | h
            · exact Or.inr (Or.inr (Or.inl h))
            · exact Or.inr (Or.inr (Or.inr h))

/-! ## Claim C2 -/

/-- Claim C2 (code bug): fetch_http.py imports extract_body_text from
daz_web_extract.content, but content.py defines no such name (the
extractor is called extract_text_content), so importing the module, and
hence any call to extract, raises ImportError instead of returning a
failure result. -/
theorem c2_import_error :
    fetch_http_imports_resolve = false
    ∧ "extract_body_text" ∈ fetch_http_content_imports
    ∧ "extract_body_text" ∉ content_module_names
    ∧ "extract_text_content" ∈ content_module_names := by
  refine ⟨rfl, ?_, ?_, ?_⟩ <;> decide

/-! ## Claim C3 -/

theorem resultInvariant_make_failure (url error : String)
    (fetch_method : Option String) (status_code : Option Nat) (elapsed_ms : Nat) :
    resultInvariant (make_failure url error fetch_method status_code elapsed_ms)
      = true := by
  simp [resultInvariant, make_failure]

theorem resultInvariant_make_success (url : String) (title : Option String)
    (body : String) (fetch_method : String) (status_code : Option Nat)
    (elapsed_ms : Nat) (h : 100 ≤ body.length) :
    resultInvariant (make_success url title body fetch_method status_code elapsed_ms)
      = true := by
  simp [resultInvariant, make_success, h]

theorem resultInvariant_fetch_http (url : String) (env : Env) :
    resultInvariant (fetch_http url env) = true := by
  unfold fetch_http http_extract_from_html
  cases env.http with
  | exc msg => exact resultInvariant_make_failure ..
  | resp status ct tree =>
    dsimp only
    split
    · exact resultInvariant_make_failure ..
    · split
      · exact resultInvariant_make_failure ..
      · cases extract_body_text tree with
        | none => exact resultInvariant_make_failure ..
        | some b =>
          dsimp only
          split
          · exact resultInvariant_make_failure ..
          · next hlen => exact resultInvariant_make_success _ _ _ _ _ _ (by omega)

theorem resultInvariant_fetch_trafilatura (url : String) (env : Env) :
    resultInvariant (fetch_trafilatura url env) = true := by
  unfold fetch_trafilatura
  cases env.traf with
  | timeout => exact resultInvariant_make_failure ..
  | exc msg => exact resultInvariant_make_failure ..
  | done downloaded extracted metaTitle =>
    cases extracted with
    | none => exact resultInvariant_make_failure ..
    | some b =>
      dsimp only
      split
      · exact resultInvariant_make_failure ..
      · next hlen => exact resultInvariant_make_success _ _ _ _ _ _ (by omega)

theorem resultInvariant_pw_fetch_page (url : String) (oc : BrowserOutcome)
    (ms : Nat) (method : String) :
    resultInvariant (pw_fetch_page url oc ms method) = true := by
  unfold pw_fetch_page pw_extract_from_html
  cases oc with
  | exc msg => exact resultInvariant_make_failure ..
  | page status tree trafBody =>
    dsimp only
    have hbody : ∀ body0 : Option String,
        resultInvariant
          (match body0 with
            | none => make_failure url "Body too short" (some method) status ms
            | some b =>
              if b.length < 100 then
                make_failure url "Body too short" (some method) status ms
              else
                make_success url (extract_title tree) b method status ms) = true := by
      intro body0
      cases body0 with
      | none => exact resultInvariant_make_failure ..
      | some b =>
        dsimp only
        split
        · exact resultInvariant_make_failure ..
        · next hlen => exact resultInvariant_make_success _ _ _ _ _ _ (by omega)
    cases status with
    | none => exact hbody _
    | some c =>
      dsimp only
      split
      · exact resultInvariant_make_failure ..
      · exact hbody _

theorem resultInvariant_run_tier3_and_4 (url : String) (env : Env) (cb : Nat)
    (maxTier : Int) :
    resultInvariant (run_tier3_and_4 url env cb maxTier).1 = true := by
  unfold run_tier3_and_4
  dsimp only
  split
  · exact resultInvariant_pw_fetch_page url env.nojs env.nojsMs "playwright-nojs"
  · split
    · exact resultInvariant_pw_fetch_page url env.nojs env.nojsMs "playwright-nojs"
    · split
      · exact resultInvariant_pw_fetch_page url env.js env.jsMs "playwright"
      · exact resultInvariant_make_failure ..

/-- Claim C3: every result built by a tier fetcher or by the top-level
extract satisfies the record invariants: success implies a non-null body
of at least 100 characters, a null error and content_length equal to the
body length; failure implies null body and title, zero content_length and
a non-null error. -/
theorem c3_result_invariants (url : String) (maxTier : Int) (env : Env) :
    resultInvariant (fetch_http url env) = true
    ∧ resultInvariant (fetch_trafilatura url env) = true
    ∧ resultInvariant (fetch_playwright_nojs url env) = true
    ∧ resultInvariant (fetch_playwright url env) = true
    ∧ resultInvariant (extract url maxTier env) = true := by
  refine ⟨resultInvariant_fetch_http url env,
    resultInvariant_fetch_trafilatura url env,
    resultInvariant_pw_fetch_page url env.nojs env.nojsMs "playwright-nojs",
    resultInvariant_pw_fetch_page url env.js env.jsMs "playwright", ?_⟩
  unfold extract extract_run
  dsimp only
  split
  · exact resultInvariant_fetch_http url env
  · split
    · exact resultInvariant_fetch_http url env
    · split
      · exact resultInvariant_run_tier3_and_4 url env env.httpMs maxTier
      · split
        · exact resultInvariant_fetch_trafilatura url env
        · split
          · exact resultInvariant_fetch_trafilatura url env
          · exact resultInvariant_run_tier3_and_4 url env (env.httpMs + env.trafMs) maxTier

/-! ## Claim C4 -/

theorem run_tier3_and_4_trace (url : String) (env : Env) (cb : Nat)
    (maxTier : Int) :
    (run_tier3_and_4 url env cb maxTier).2 = [Tier.t3]
    ∨ (run_tier3_and_4 url env cb maxTier).2 = [Tier.t3, Tier.t4] := by
  unfold run_tier3_and_4
  dsimp only
  split
  · exact Or.inl rfl
  · split
    · exact Or.inl rfl
    · split
      · exact Or.inr rfl
      · exact Or.inr rfl

/-- Claim C4: when tier 1 fails and escalation past tier 2 is allowed,
a 4xx or 5xx status other than 403 and 429 sends control straight to the
browser tiers without invoking tier 2, whereas 403, 429 or a failure
without an HTTP status leads to a tier-2 attempt. -/
theorem c4_skip_tier2 (url : String) (maxTier : Int) (env : Env) (c : Nat)
    (hfail : (fetch_http url env).success = false)
    (hmt : 3 ≤ maxTier) :
    ((fetch_http url env).status_code = some c → 400 ≤ c → c < 600 →
       c ≠ 403 → c ≠ 429 →
       Tier.t2 ∉ (extract_run url maxTier env).2
       ∧ Tier.t3 ∈ (extract_run url maxTier env).2)
    ∧ (((fetch_http url env).status_code = some 403
        ∨ (fetch_http url env).status_code = some 429
        ∨ (fetch_http url env).status_code = none) →
       Tier.t2 ∈ (extract_run url maxTier env).2) := by
  have hnot2 : ¬ maxTier < 2 := by omega
  constructor
  · intro hstatus h400 h600 h403 h429
    have hskip : should_skip_to_tier3 (fetch_http url env) = true := by
      unfold should_skip_to_tier3
      rw [hstatus]
      simp only [skip_code]
      simp only [Bool.and_eq_true, Bool.not_eq_true', Bool.or_eq_false_iff,
        decide_eq_true_eq, decide_eq_false_iff_not]
      omega
    have htrace : (extract_run url maxTier env).2
        = Tier.t1 :: (run_tier3_and_4 url env env.httpMs maxTier).2 := by
      unfold extract_run
      simp [hfail, hskip, hnot2, hmt]
    rw [htrace]
    rcases run_tier3_and_4_trace url env env.httpMs maxTier with h | h <;>
      rw [h] <;> simp
  · intro hstatus
    have hskip : should_skip_to_tier3 (fetch_http url env) = false := by
      unfold should_skip_to_tier3
      rcases hstatus with h | h | h <;> rw [h] <;> rfl
    unfold extract_run
    simp only [hfail, hskip, hnot2, Bool.false_eq_true, if_false,
      Bool.false_and, if_true]
    split
    · simp
    · split
      · simp
      · simp

/-- Claim C4 witness: with tier 1 seeing HTTP 404 tier 2 is skipped and
tier 3 runs; with HTTP 403 tier 2 is attempted. -/
theorem c4_witness :
    (Tier.t2 ∉ (extract_run "u" 4 env404).2
     ∧ Tier.t3 ∈ (extract_run "u" 4 env404).2)
    ∧ Tier.t2 ∈ (extract_run "u" 4 env403).2 := by
  constructor
  · exact (c4_skip_tier2 "u" 4 env404 404 (by decide) (by norm_num)).1
      (by decide) (by norm_num) (by norm_num) (by norm_num) (by norm_num)
  · exact (c4_skip_tier2 "u" 4 env403 403 (by decide) (by norm_num)).2
      (Or.inl (by decide))

/-! ## Claim C5 -/

/-- Claim C5: a tier-3 success whose body matches the JS-required
heuristic escalates to tier 4 when max_tier allows it and is returned
as-is when max_tier is below 4; a tier-3 success with no phrase match is
returned without running tier 4. -/
theorem c5_js_escalation (url : String) (env : Env) (cb : Nat) (maxTier : Int)
    (hsucc : (fetch_playwright_nojs url env).success = true) :
    (requires_javascript (fetch_playwright_nojs url env) = true →
       (4 ≤ maxTier → Tier.t4 ∈ (run_tier3_and_4 url env cb maxTier).2)
       ∧ (maxTier < 4 →
            (run_tier3_and_4 url env cb maxTier).1 = fetch_playwright_nojs url env
            ∧ Tier.t4 ∉ (run_tier3_and_4 url env cb maxTier).2))
    ∧ (requires_javascript (fetch_playwright_nojs url env) = false →
       (run_tier3_and_4 url env cb maxTier).1 = fetch_playwright_nojs url env
       ∧ Tier.t4 ∉ (run_tier3_and_4 url env cb maxTier).2) := by
  constructor
  · intro hjs
    constructor
    · intro hmt
      have hnot4 : ¬ maxTier < 4 := by omega
      unfold run_tier3_and_4
      simp only [hsucc, hjs, hnot4, Bool.not_true, Bool.and_false,
        Bool.false_eq_true, if_false]
      split <;> simp
    · intro hmt
      unfold run_tier3_and_4
      simp only [hsucc, hjs, hmt, Bool.not_true, Bool.and_false,
        Bool.false_eq_true, if_false, if_true]
      simp
  · intro hjs
    unfold run_tier3_and_4
    simp only [hsucc, hjs, Bool.not_false, Bool.and_self, if_true]
    simp

/-- Claim C5 witness: a rendered tier-3 page whose extracted body asks
the reader to enable JavaScript escalates to tier 4. -/
theorem c5_witness : Tier.t4 ∈ (run_tier3_and_4 "u" envJS 0 4).2 := by
  exact ((c5_js_escalation "u" envJS 0 4 (by decide)).1 (by decide)).1 (by norm_num)

/-! ## Claim C9 -/

theorem fetch_http_elapsed (url : String) (env : Env) :
    (fetch_http url env).elapsed_ms = env.httpMs := by
  unfold fetch_http http_extract_from_html
  cases env.http with
  | exc msg => rfl
  | resp status ct tree =>
    dsimp only
    split
    · rfl
    · split
      · rfl
      · cases extract_body_text tree with
        | none => rfl
        | some b =>
          dsimp only
          split <;> rfl

theorem fetch_trafilatura_elapsed (url : String) (env : Env) :
    (fetch_trafilatura url env).elapsed_ms = env.trafMs := by
  unfold fetch_trafilatura
  cases env.traf with
  | timeout => rfl
  | exc msg => rfl
  | done downloaded extracted metaTitle =>
    cases extracted with
    | none => rfl
    | some b =>
      dsimp only
      split <;> rfl

theorem pw_fetch_page_elapsed (url : String) (oc : BrowserOutcome) (ms : Nat)
    (method : String) :
    (pw_fetch_page url oc ms method).elapsed_ms = ms := by
  unfold pw_fetch_page pw_extract_from_html
  cases oc with
  | exc msg => rfl
  | page status tree trafBody =>
    dsimp only
    have hbody : ∀ body0 : Option String,
        (match body0 with
          | none => make_failure url "Body too short" (some method) status ms
          | some b =>
            if b.length < 100 then
              make_failure url "Body too short" (some method) status ms
            else
              make_success url (extract_title tree) b method status ms).elapsed_ms
          = ms := by
      intro body0
      cases body0 with
      | none => rfl
      | some b =>
        dsimp only
        split <;> rfl
    cases status with
    | none => exact hbody _
    | some c =>
      dsimp only
      split
      · rfl
      · exact hbody _

theorem run_tier3_and_4_elapsed (url : String) (env : Env) (cb : Nat)
    (maxTier : Int)
    (hfail : (run_tier3_and_4 url env cb maxTier).1.success = false) :
    ((run_tier3_and_4 url env cb maxTier).2 = [Tier.t3]
      ∧ (run_tier3_and_4 url env cb maxTier).1.elapsed_ms = env.nojsMs)
    ∨ ((run_tier3_and_4 url env cb maxTier).2 = [Tier.t3, Tier.t4]
      ∧ (run_tier3_and_4 url env cb maxTier).1.elapsed_ms
          = cb + env.nojsMs + env.jsMs) := by
  unfold run_tier3_and_4 at hfail ⊢
  dsimp only at hfail ⊢
  by_cases h1 : ((fetch_playwright_nojs url env).success
      && !requires_javascript (fetch_playwright_nojs url env)) = true
  · rw [if_pos h1] at hfail
    dsimp only at hfail
    rw [Bool.and_eq_true] at h1
    rw [h1.1] at hfail
    simp at hfail
  · rw [if_neg h1] at hfail ⊢
    by_cases h2 : maxTier < 4
    · rw [if_pos h2] at hfail ⊢
      exact Or.inl ⟨rfl, pw_fetch_page_elapsed url env.nojs env.nojsMs "playwright-nojs"⟩
    · rw [if_neg h2] at hfail ⊢
      by_cases h3 : (fetch_playwright url env).success = true
      · rw [if_pos h3] at hfail
        dsimp only at hfail
        rw [h3] at hfail
        simp at hfail
      · rw [if_neg h3] at hfail ⊢
        exact Or.inr ⟨rfl, rfl⟩

/-- Claim C9 (counterexample): with tier 1 taking 5 ms and failing on
extraction, tier 2 taking 7 ms and failing, and max_tier 2, the returned
failure reports 7 ms, the duration of tier 2 alone, not the 12 ms total
across the attempted tiers. -/
theorem c9_counterexample :
    (extract_run "u" 2 env9).1.success = false
    ∧ (extract_run "u" 2 env9).2 = [Tier.t1, Tier.t2]
    ∧ (extract_run "u" 2 env9).1.elapsed_ms = 7
    ∧ ((extract_run "u" 2 env9).2.map (durOf env9)).sum = 12
    ∧ ¬ (extract_run "u" 2 env9).1.elapsed_ms
        = ((extract_run "u" 2 env9).2.map (durOf env9)).sum := by
  refine ⟨?_, ?_, ?_, ?_, ?_⟩ <;> decide

/-- Claim C9 (amended): a failure returned by extract measures total
pipeline time only when it is the synthesised terminal failure after
tier 4; a failure returned directly by tier 1, 2 or 3 carries only that
last tier's own elapsed time. -/
theorem c9_elapsed (url : String) (maxTier : Int) (env : Env)
    (hfail : (extract_run url maxTier env).1.success = false) :
    (Tier.t4 ∈ (extract_run url maxTier env).2 →
       (extract_run url maxTier env).1.elapsed_ms
         = ((extract_run url maxTier env).2.map (durOf env)).sum)
    ∧ (Tier.t4 ∉ (extract_run url maxTier env).2 →
       ∃ t, (extract_run url maxTier env).2.getLast? = some t
         ∧ (extract_run url maxTier env).1.elapsed_ms = durOf env t) := by
  unfold extract_run at hfail ⊢
  dsimp only at hfail ⊢
  by_cases h1 : (fetch_http url env).success = true
  · rw [if_pos h1] at hfail
    dsimp only at hfail
    rw [h1] at hfail
    simp at hfail
  · rw [if_neg h1] at hfail ⊢
    by_cases h2 : maxTier < 2
    · rw [if_pos h2] at hfail ⊢
      refine ⟨fun hmem => absurd hmem (by simp), fun _ => ⟨Tier.t1, by simp, ?_⟩⟩
      exact fetch_http_elapsed url env
    · rw [if_neg h2] at hfail ⊢
      by_cases h3 : (should_skip_to_tier3 (fetch_http url env)
          && decide (3 ≤ maxTier)) = true
      · rw [if_pos h3] at hfail ⊢
        dsimp only at hfail ⊢
        rcases run_tier3_and_4_elapsed url env env.httpMs maxTier hfail with
          ⟨htr, hel⟩ | ⟨htr, hel⟩
        · rw [htr, hel]
          refine ⟨fun hmem => absurd hmem (by simp), fun _ => ⟨Tier.t3, by simp, rfl⟩⟩
        · rw [htr, hel]
          refine ⟨fun _ => ?_, fun hmem => absurd (by simp) hmem⟩
          simp [durOf]
          omega
      · rw [if_neg h3] at hfail ⊢
        by_cases h4 : (fetch_trafilatura url env).success = true
        · rw [if_pos h4] at hfail
          dsimp only at hfail
          rw [h4] at hfail
          simp at hfail
        · rw [if_neg h4] at hfail ⊢
          by_cases h5 : maxTier < 3
          · rw [if_pos h5] at hfail ⊢
            refine ⟨fun hmem => absurd hmem (by simp), fun _ => ⟨Tier.t2, by simp, ?_⟩⟩
            exact fetch_trafilatura_elapsed url env
          · rw [if_neg h5] at hfail ⊢
            dsimp only at hfail ⊢
            rcases run_tier3_and_4_elapsed url env (env.httpMs + env.trafMs) maxTier
              hfail with ⟨htr, hel⟩ | ⟨htr, hel⟩
            · rw [htr, hel]
              refine ⟨fun hmem => absurd hmem (by simp),
                fun _ => ⟨Tier.t3, by simp, rfl⟩⟩
            · rw [htr, hel]
              refine ⟨fun _ => ?_, fun hmem => absurd (by simp) hmem⟩
              simp [durOf]
              omega

/-- Claim C9 witness: with every tier failing, the synthesised terminal
failure's elapsed time is the sum of all four tier durations. -/
theorem c9_witness :
    (extract_run "u" 4 envC1).1.elapsed_ms
      = ((extract_run "u" 4 envC1).2.map (durOf envC1)).sum := by
  exact (c9_elapsed "u" 4 envC1 (by decide)).1 (by decide)

/-! ## Claim C10 -/

set_option maxRecDepth 40000 in
/-- Claim C10: noise removal never detaches the root element: a root that
itself matches a noise rule keeps its tag and attributes, only its
children are filtered, and extraction through a noise-matching root still
returns the text found inside it. -/
theorem c10_root_preserved (tag : String) (attrs : List (String × String))
    (children : List Node) (h : is_noise_element tag attrs = true) :
    (∃ cs, remove_noise (Node.el tag attrs children) = Node.el tag attrs cs)
    ∧ extract_text_content sidebarDoc = some zPara := by
  refine ⟨⟨remove_noise_list children, rfl⟩, ?_⟩
  decide

/-- Claim C10 witness: a fragment rooted at a div with class sidebar
still yields the paragraph text inside it. -/
theorem c10_witness :
    (∃ cs, remove_noise (Node.el "div" [("class", "sidebar")] [])
        = Node.el "div" [("class", "sidebar")] cs)
    ∧ extract_text_content sidebarDoc = some zPara :=
  c10_root_preserved "div" [("class", "sidebar")] [] (by decide)

/-! ## Claim C6 -/

theorem str_append_empty (s : String) : s ++ "" = s := by
  apply String.ext
  rw [String.data_append]
  exact List.append_nil s.data

theorem length_pos_ne_empty (s : String) (h : 100 ≤ s.length) : s ≠ "" := by
  intro he
  rw [he] at h
  simp at h

/-- Claim C6: a minimal document made of one noise subtree, matching any
noise rule by tag, class token, id or role, and one normalised article
paragraph of at least MIN_BODY_LENGTH characters extracts to exactly the
paragraph: the body contains the paragraph and none of the noise
subtree's text beyond what already occurs inside the paragraph. -/
theorem c6_noise_immunity (ntag : String) (nattrs : List (String × String))
    (nkids : List Node) (para : String)
    (hnoise : is_noise_element ntag nattrs = true)
    (hnorm : normalizeText para = para)
    (hlen : 100 ≤ para.length) :
    extract_text_content (noiseDoc ntag nattrs nkids para) = some para
    ∧ ∀ s : String, listIsInfixOf s.data para.data = false →
        ∀ b, extract_text_content (noiseDoc ntag nattrs nkids para) = some b →
          listIsInfixOf s.data b.data = false := by
  have hpne : para ≠ "" := length_pos_ne_empty para hlen
  have hkn : keepChild (Node.el ntag nattrs nkids) = false := by
    simp only [keepChild, hnoise, Bool.not_true]
  have hkb : ∀ l, keepChild (Node.el "body" [] l) = true := fun l => by
    simp only [keepChild]
    decide
  have hkp : ∀ l, keepChild (Node.el "p" [] l) = true := fun l => by
    simp only [keepChild]
    decide
  have hkt : ∀ s, keepChild (Node.txt s) = true := fun s => rfl
  have h1 : remove_noise (noiseDoc ntag nattrs nkids para)
      = Node.el "html" [] [Node.el "body" [] [Node.el "p" [] [Node.txt para]]] := by
    simp only [noiseDoc, remove_noise, remove_noise_list, hkb, hkp, hkn, hkt]
    simp
  have hc1 : CONTENT_TAGS.contains "html" = false := by decide
  have hc2 : CONTENT_TAGS.contains "body" = false := by decide
  have hc3 : CONTENT_TAGS.contains "p" = true := by decide
  have h2 : collect_blocks
        (Node.el "html" [] [Node.el "body" [] [Node.el "p" [] [Node.txt para]]])
      = [para] := by
    simp only [collect_blocks, collect_blocks_list, textContent, textContentList,
      hc1, hc2, hc3, str_append_empty, hnorm]
    simp [hpne]
  have hmain : extract_text_content (noiseDoc ntag nattrs nkids para) = some para := by
    unfold extract_text_content
    rw [h1]
    have h15 : decide (MIN_BLOCK_LENGTH ≤ para.length) = true := by
      simp only [decide_eq_true_eq, MIN_BLOCK_LENGTH]
      omega
    have hge : ¬ para.length < MIN_BODY_LENGTH := by
      simp only [MIN_BODY_LENGTH]
      omega
    simp only [h2, List.filter, h15, pyJoin]
    simp [hge]
  refine ⟨hmain, fun s hs b hb => ?_⟩
  rw [hmain] at hb
  cases hb
  exact hs

/-- Claim C6 witness: a nav subtree full of text next to a 120-character
paragraph leaves exactly the paragraph. -/
theorem c6_witness :
    extract_text_content
        (noiseDoc "nav" [] [Node.txt "Home About Contact Careers"] zPara)
      = some zPara :=
  (c6_noise_immunity "nav" [] [Node.txt "Home About Contact Careers"] zPara
    (by decide) (by decide) (by decide)).1

/-! ## Claim C8 -/

theorem contains_iff_mem (l : List Char) (c : Char) :
    l.contains c = true ↔ c ∈ l :=
  List.elem_iff

theorem contains_false_iff (l : List Char) (c : Char) :
    l.contains c = false ↔ c ∉ l := by
  rw [← contains_iff_mem l c]
  cases l.contains c <;> simp

theorem space_not_sep (c : Char) (h : pyIsSpace c = true) :
    SEP_CHARS.contains c = false := by
  simp only [pyIsSpace, Bool.or_eq_true, decide_eq_true_eq] at h
  rcases h with ((((h | h) | h) | h) | h) | h <;> subst h <;> decide

theorem dropWhile_cons_head (p : Char → Bool) :
    ∀ (l : List Char) (a : Char) (t : List Char),
      l.dropWhile p = a :: t → p a = false := by
  intro l
  induction l with
  | nil =>
    intro a t h
    cases h
  | cons x xs ih =>
    intro a t h
    rw [List.dropWhile_cons] at h
    by_cases hx : p x = true
    · rw [if_pos hx] at h
      exact ih a t h
    · rw [if_neg hx] at h
      cases h
      simpa using hx

theorem prefix_all_takeWhile (p : Char → Bool) :
    ∀ (u l : List Char), u <+: l → (∀ c ∈ u, p c = true) → u <+: l.takeWhile p := by
  intro u
  induction u with
  | nil =>
    intro l _ _
    exact List.nil_prefix
  | cons a u' ih =>
    intro l hpre hall
    obtain ⟨v, hv⟩ := hpre
    subst hv
    have hpa : p a = true := hall a (by simp)
    rw [List.cons_append, List.takeWhile_cons, hpa]
    simp only [if_true]
    rw [List.cons_prefix_cons]
    exact ⟨rfl, ih (u' ++ v) ⟨v, rfl⟩ (fun c hc => hall c (by simp [hc]))⟩

/-- The regex model title_suffix_sub removes exactly the longest
end-anchored occurrence of the title-suffix pattern, or nothing when no
suffix matches the pattern. -/
theorem title_suffix_sub_spec (title : String) :
    ((∀ p m, title.data = p ++ m → ¬ PatSuffix m) ∧ title_suffix_sub title = title)
    ∨ (∃ p m, title.data = p ++ m ∧ PatSuffix m
         ∧ (title_suffix_sub title).data = p
         ∧ ∀ p' m', title.data = p' ++ m' → PatSuffix m' → m'.length ≤ m.length) := by
  cases hdrop : title.data.reverse.dropWhile (fun c => !SEP_CHARS.contains c) with
  | nil =>
    left
    refine ⟨?_, ?_⟩
    · intro p m hpm hpat
      obtain ⟨ws1, sep, ws2, t, hm, _, hsep, _, _, _⟩ := hpat
      have hsepmem : sep ∈ title.data := by
        rw [hpm, hm]
        simp
      have hq : (fun c => !SEP_CHARS.contains c) sep = true :=
        List.dropWhile_eq_nil_iff.mp hdrop sep (List.mem_reverse.mpr hsepmem)
      simp only [Bool.not_eq_true'] at hq
      exact (contains_false_iff SEP_CHARS sep).mp hq hsep
    · unfold title_suffix_sub
      simp only [hdrop]
  | cons s before =>
    have hqs : SEP_CHARS.contains s = true := by
      have := dropWhile_cons_head (fun c => !SEP_CHARS.contains c)
        title.data.reverse s before hdrop
      simpa using this
    have hsmem : s ∈ SEP_CHARS := (contains_iff_mem SEP_CHARS s).mp hqs
    have hsplit : title.data.reverse.takeWhile (fun c => !SEP_CHARS.contains c)
        ++ (s :: before) = title.data.reverse := by
      conv_rhs => rw [← List.takeWhile_append_dropWhile
        (fun c => !SEP_CHARS.contains c) title.data.reverse]
      rw [hdrop]
    by_cases htake : title.data.reverse.takeWhile (fun c => !SEP_CHARS.contains c) = []
    · left
      have hr : title.data.reverse = s :: before := by
        rw [← hsplit, htake, List.nil_append]
      have hl : title.data = before.reverse ++ [s] := by
        have h0 := congrArg List.reverse hr
        rw [List.reverse_reverse] at h0
        rw [h0]
        simp
      refine ⟨?_, ?_⟩
      · intro p m hpm hpat
        obtain ⟨ws1, sep, ws2, t, hm, _, hsep, _, htne, htfree⟩ := hpat
        have hlast_l : title.data.getLast? = some s := by
          rw [hl]
          exact List.getLast?_concat _
        have hmne : m ≠ [] := by
          rw [hm]
          simp
        have huns : (ws2 ++ t) ≠ [] := by
          simp [htne]
        have hlast_m : title.data.getLast? = t.getLast? := by
          rw [hpm, List.getLast?_append_of_ne_nil _ hmne, hm,
            List.getLast?_append_of_ne_nil _ (by simp : (sep :: (ws2 ++ t)) ≠ [])]
          have hsplitc : sep :: (ws2 ++ t) = [sep] ++ (ws2 ++ t) := by simp
          rw [hsplitc, List.getLast?_append_of_ne_nil _ huns,
            List.getLast?_append_of_ne_nil _ htne]
        have hst : t.getLast? = some s := by
          rw [← hlast_m, hlast_l]
        exact htfree s (List.mem_of_mem_getLast? hst) hsmem
      · unfold title_suffix_sub
        simp only [hdrop, htake]
        simp
    · right
      have h0 : (title.data.reverse.takeWhile (fun c => !SEP_CHARS.contains c)
          ++ (s :: before)).reverse = title.data := by
        have h1 := congrArg List.reverse hsplit
        rw [List.reverse_reverse] at h1
        exact h1
      have hl : title.data = before.reverse ++ s ::
          (title.data.reverse.takeWhile (fun c => !SEP_CHARS.contains c)).reverse := by
        conv_lhs => rw [← h0]
        simp
      have hbsplit : before.takeWhile pyIsSpace ++ before.dropWhile pyIsSpace
          = before :=
        List.takeWhile_append_dropWhile pyIsSpace before
      have hbrev : before.reverse
          = (before.dropWhile pyIsSpace).reverse
            ++ (before.takeWhile pyIsSpace).reverse := by
        conv_lhs => rw [← hbsplit]
        exact List.reverse_append _ _
      refine ⟨(before.dropWhile pyIsSpace).reverse,
        (before.takeWhile pyIsSpace).reverse ++ s ::
          (title.data.reverse.takeWhile (fun c => !SEP_CHARS.contains c)).reverse,
        ?_, ?_, ?_, ?_⟩
      · refine hl.trans ?_
        rw [hbrev]
        simp [List.append_assoc]
      · refine ⟨(before.takeWhile pyIsSpace).reverse, s, [],
          (title.data.reverse.takeWhile (fun c => !SEP_CHARS.contains c)).reverse,
          by simp, ?_, hsmem, by simp, by simpa using htake, ?_⟩
        · intro c hc
          exact List.mem_takeWhile_imp (List.mem_reverse.mp hc)
        · intro c hc
          have hqc := List.mem_takeWhile_imp (List.mem_reverse.mp hc)
          simp only [Bool.not_eq_true'] at hqc
          exact (contains_false_iff SEP_CHARS c).mp hqc
      · unfold title_suffix_sub
        simp only [hdrop]
        rw [if_neg htake]
      · intro p' m' hpm' hpat'
        obtain ⟨ws1', sep', ws2', t', hm', hws1', hsep', hws2', ht'ne, ht'free⟩ :=
          hpat'
        have hufree : ∀ c ∈ ws2' ++ t', SEP_CHARS.contains c = false := by
          intro c hc
          rcases List.mem_append.mp hc with hc | hc
          · exact space_not_sep c (hws2' c hc)
          · exact (contains_false_iff SEP_CHARS c).mpr (ht'free c hc)
        have hrm : title.data.reverse
            = (ws2' ++ t').reverse ++ sep' :: (ws1'.reverse ++ p'.reverse) := by
          rw [hpm', hm']
          simp [List.append_assoc]
        have hupre : (ws2' ++ t').reverse <+: title.data.reverse :=
          ⟨sep' :: (ws1'.reverse ++ p'.reverse), hrm.symm⟩
        have huall : ∀ c ∈ (ws2' ++ t').reverse,
            (fun c => !SEP_CHARS.contains c) c = true := by
          intro c hc
          simp only [Bool.not_eq_true']
          exact hufree c (List.mem_reverse.mp hc)
        have hupre2 : (ws2' ++ t').reverse
            <+: title.data.reverse.takeWhile (fun c => !SEP_CHARS.contains c) :=
          prefix_all_takeWhile _ _ _ hupre huall
        obtain ⟨extra, hextra⟩ := hupre2
        cases extra with
        | nil =>
          rw [List.append_nil] at hextra
          have hcancel0 : (ws2' ++ t').reverse ++ (s :: before)
              = (ws2' ++ t').reverse
                ++ (sep' :: (ws1'.reverse ++ p'.reverse)) := by
            rw [← hrm, hextra]
            exact hsplit
          have hcancel := List.append_cancel_left hcancel0
          injection hcancel with hs' hbefore
          have hw1pre : ws1'.reverse <+: before := by
            rw [hbefore]
            exact ⟨p'.reverse, rfl⟩
          have hw1all : ∀ c ∈ ws1'.reverse, pyIsSpace c = true := by
            intro c hc
            exact hws1' c (List.mem_reverse.mp hc)
          have hw1len : ws1'.length ≤ (before.takeWhile pyIsSpace).length := by
            have := (prefix_all_takeWhile pyIsSpace _ _ hw1pre hw1all).length_le
            simpa using this
          have hulen := congrArg List.length hextra
          simp only [List.length_reverse, List.length_append] at hulen
          rw [hm']
          simp only [List.length_append, List.length_cons, List.length_reverse]
          omega
        | cons e extra' =>
          exfalso
          have hcancel0 : (ws2' ++ t').reverse ++ (e :: (extra' ++ (s :: before)))
              = (ws2' ++ t').reverse
                ++ (sep' :: (ws1'.reverse ++ p'.reverse)) := by
            rw [← hrm, ← hsplit, ← hextra]
            simp [List.append_assoc]
          have hcancel := List.append_cancel_left hcancel0
          injection hcancel with he _
          have hemem : e ∈ title.data.reverse.takeWhile
              (fun c => !SEP_CHARS.contains c) := by
            rw [← hextra]
            simp
          have hqe := List.mem_takeWhile_imp hemem
          simp only [Bool.not_eq_true'] at hqe
          rw [he] at hqe
          exact absurd hsep' ((contains_false_iff SEP_CHARS sep').mp hqe)

/-- Claim C8: when extract_title falls through to the first title element
with non-empty trimmed text, it strips the longest trailing occurrence of
the pattern whitespace, separator, whitespace, non-separator run at end
of string, with separators pipe, hyphen, en dash and em dash; if cleaning
strips to empty the un-cleaned original is returned; the scenario title
Article Title pipe SiteName with no og:title yields Article Title. -/
theorem c8_title_suffix_cleaning :
    (∀ title : String,
       ((∀ p m, title.data = p ++ m → ¬ PatSuffix m)
          ∧ title_suffix_sub title = title)
       ∨ (∃ p m, title.data = p ++ m ∧ PatSuffix m
            ∧ (title_suffix_sub title).data = p
            ∧ ∀ p' m', title.data = p' ++ m' → PatSuffix m' → m'.length ≤ m.length))
    ∧ (∀ title, pyStrip (title_suffix_sub title) = "" →
         clean_title_suffix title = title)
    ∧ (∀ title, pyStrip (title_suffix_sub title) ≠ "" →
         clean_title_suffix title = title_suffix_sub title)
    ∧ extract_title exampleTitleDoc = some "Article Title" := by
  refine ⟨title_suffix_sub_spec, ?_, ?_, ?_⟩
  · intro title h
    unfold clean_title_suffix
    simp [h]
  · intro title h
    unfold clean_title_suffix
    simp [h]
  · decide

/-- Claim C8 witness: cleaning strips the site suffix in the concrete
scenario, and a title that would clean to empty is returned unchanged. -/
theorem c8_witness :
    clean_title_suffix "- X" = "- X"
    ∧ extract_title exampleTitleDoc = some "Article Title" := by
  refine ⟨?_, c8_title_suffix_cleaning.2.2.2⟩
  exact c8_title_suffix_cleaning.2.1 "- X" (by decide)

/-! ## Claim C7 -/

theorem chunk_head (u : List Char) (hu : Chunk u) :
    ∃ c u', u = c :: u' ∧ pyIsSpace c = false := by
  cases hu with
  | one c h => exact ⟨c, [], rfl, h⟩
  | cons c h u' _ => exact ⟨c, u', rfl, h⟩
  | consSp c h u' _ => exact ⟨c, ' ' :: u', rfl, h⟩

theorem chunk_ne_nil (u : List Char) (hu : Chunk u) : u ≠ [] := by
  obtain ⟨c, u', he, _⟩ := chunk_head u hu
  rw [he]
  simp

theorem chunk_getLast (u : List Char) (hu : Chunk u) :
    ∀ c, u.getLast? = some c → pyIsSpace c = false := by
  induction hu with
  | one d h =>
    intro c hc
    simp at hc
    rw [← hc]
    exact h
  | cons d h u' hu' ih =>
    intro c hc
    obtain ⟨e, u'', he, _⟩ := chunk_head u' hu'
    rw [he] at hc
    rw [List.getLast?_cons_cons] at hc
    exact ih c (by rw [he]; exact hc)
  | consSp d h u' hu' ih =>
    intro c hc
    obtain ⟨e, u'', he, _⟩ := chunk_head u' hu'
    rw [he] at hc
    rw [List.getLast?_cons_cons, List.getLast?_cons_cons] at hc
    exact ih c (by rw [he]; exact hc)

theorem collapseAux_cons_not_space (c : Char) (h : pyIsSpace c = false)
    (l : List Char) (pw : Bool) :
    collapseAux (c :: l) pw = c :: collapseAux l false := by
  cases pw <;> simp [collapseAux, h]

theorem collapse_chunk_append (u : List Char) (hu : Chunk u) :
    ∀ v, collapseAux (u ++ v) false = u ++ collapseAux v false := by
  induction hu with
  | one c h =>
    intro v
    rw [List.cons_append, List.nil_append,
      collapseAux_cons_not_space c h v false]
    rfl
  | cons c h u' hu' ih =>
    intro v
    rw [List.cons_append, collapseAux_cons_not_space c h (u' ++ v) false, ih v,
      List.cons_append]
  | consSp c h u' hu' ih =>
    intro v
    obtain ⟨d, u'', hd, hdns⟩ := chunk_head u' hu'
    rw [List.cons_append, List.cons_append,
      collapseAux_cons_not_space c h (' ' :: (u' ++ v)) false]
    have hsp : collapseAux (' ' :: (u' ++ v)) false
        = ' ' :: collapseAux (u' ++ v) true := by
      simp [collapseAux, pyIsSpace]
    rw [hsp]
    have htrue : collapseAux (u' ++ v) true = collapseAux (u' ++ v) false := by
      rw [hd, List.cons_append, collapseAux_cons_not_space d hdns (u'' ++ v) true,
        collapseAux_cons_not_space d hdns (u'' ++ v) false]
    rw [htrue, ih v]
    simp

theorem collapse_chunk (u : List Char) (hu : Chunk u) :
    collapseAux u false = u := by
  have := collapse_chunk_append u hu []
  simpa [collapseAux] using this

theorem dropWhile_eq_self_of_head (p : Char → Bool) (l : List Char)
    (h : ∀ c, l.head? = some c → p c = false) : l.dropWhile p = l := by
  cases l with
  | nil => rfl
  | cons a t =>
    rw [List.dropWhile_cons, if_neg]
    rw [h a (by simp)]
    simp

theorem stripL_eq_self_of_ends (l : List Char)
    (hhead : ∀ c, l.head? = some c → pyIsSpace c = false)
    (hlast : ∀ c, l.getLast? = some c → pyIsSpace c = false) :
    stripL l = l := by
  unfold stripL
  rw [dropWhile_eq_self_of_head pyIsSpace l hhead]
  rw [dropWhile_eq_self_of_head pyIsSpace l.reverse
    (fun c hc => hlast c (by rw [← List.head?_reverse]; exact hc))]
  exact List.reverse_reverse l

theorem chunk_stripL (u : List Char) (hu : Chunk u) : stripL u = u := by
  apply stripL_eq_self_of_ends
  · intro c hc
    obtain ⟨d, u', he, hd⟩ := chunk_head u hu
    rw [he, List.head?_cons] at hc
    cases hc
    exact hd
  · exact chunk_getLast u hu

theorem chunk_append_space (u : List Char) (hu : Chunk u) :
    ∀ w, Chunk w → Chunk (u ++ ' ' :: w) := by
  induction hu with
  | one c h =>
    intro w hw
    exact Chunk.consSp c h w hw
  | cons c h u' _ ih =>
    intro w hw
    exact Chunk.cons c h _ (ih w hw)
  | consSp c h u' _ ih =>
    intro w hw
    rw [List.cons_append, List.cons_append]
    exact Chunk.consSp c h _ (ih w hw)

theorem collapseAux_true_dropWhile : ∀ w : List Char,
    collapseAux w true = collapseAux (w.dropWhile pyIsSpace) false := by
  intro w
  induction w with
  | nil => rfl
  | cons c w' ih =>
    by_cases hc : pyIsSpace c = true
    · rw [List.dropWhile_cons, if_pos hc]
      rw [show collapseAux (c :: w') true = collapseAux w' true from by
        simp [collapseAux, hc]]
      exact ih
    · have hcf : pyIsSpace c = false := by simpa using hc
      rw [List.dropWhile_cons, if_neg (by simp [hcf])]
      rw [collapseAux_cons_not_space c hcf w' true,
        collapseAux_cons_not_space c hcf w' false]

theorem getLast?_cons_of_ne_nil (a : Char) (t : List Char) (h : t ≠ []) :
    (a :: t).getLast? = t.getLast? := by
  cases t with
  | nil => exact absurd rfl h
  | cons b t' => exact List.getLast?_cons_cons

theorem getLast?_dropWhile (p : Char → Bool) :
    ∀ l : List Char, l.dropWhile p ≠ [] →
      (l.dropWhile p).getLast? = l.getLast? := by
  intro l
  induction l with
  | nil =>
    intro h
    simp at h
  | cons a t ih =>
    intro h
    rw [List.dropWhile_cons] at h ⊢
    by_cases ha : p a = true
    · rw [if_pos ha] at h ⊢
      have htne : t ≠ [] := by
        intro he
        rw [he] at h
        simp at h
      rw [ih h, getLast?_cons_of_ne_nil a t htne]
    · rw [if_neg ha]

theorem head?_dropWhile_false (p : Char → Bool) (l : List Char) :
    ∀ c, (l.dropWhile p).head? = some c → p c = false := by
  intro c hc
  cases hd : l.dropWhile p with
  | nil =>
    rw [hd] at hc
    cases hc
  | cons a t =>
    rw [hd, List.head?_cons] at hc
    injection hc with hac
    rw [← hac]
    exact dropWhile_cons_head p l a t hd

theorem length_dropWhile_le (p : Char → Bool) :
    ∀ l : List Char, (l.dropWhile p).length ≤ l.length := by
  intro l
  induction l with
  | nil => simp
  | cons a t ih =>
    rw [List.dropWhile_cons]
    by_cases h : p a = true
    · rw [if_pos h]
      exact Nat.le_trans ih (by simp)
    · rw [if_neg h]

theorem stripL_ends (l : List Char) :
    stripL l = []
    ∨ ((∀ c, (stripL l).head? = some c → pyIsSpace c = false)
       ∧ (∀ c, (stripL l).getLast? = some c → pyIsSpace c = false)) := by
  cases hk : (l.dropWhile pyIsSpace).reverse.dropWhile pyIsSpace with
  | nil =>
    left
    unfold stripL
    rw [hk]
    rfl
  | cons a k' =>
    right
    have hkne : (l.dropWhile pyIsSpace).reverse.dropWhile pyIsSpace ≠ [] := by
      rw [hk]
      simp
    constructor
    · intro c hc
      unfold stripL at hc
      rw [List.head?_reverse] at hc
      rw [getLast?_dropWhile pyIsSpace _ hkne] at hc
      rw [List.getLast?_reverse] at hc
      exact head?_dropWhile_false pyIsSpace l c hc
    · intro c hc
      unfold stripL at hc
      rw [List.getLast?_reverse] at hc
      exact head?_dropWhile_false pyIsSpace _ c hc

theorem collapse_chunk_of_ends :
    ∀ (n : Nat) (l : List Char), l.length ≤ n → l ≠ [] →
      (∀ c, l.head? = some c → pyIsSpace c = false) →
      (∀ c, l.getLast? = some c → pyIsSpace c = false) →
      Chunk (collapseAux l false) := by
  intro n
  induction n with
  | zero =>
    intro l hlen hne _ _
    cases l with
    | nil => exact absurd rfl hne
    | cons a t => simp at hlen
  | succ n ih =>
    intro l hlen hne hhead hlast
    cases l with
    | nil => exact absurd rfl hne
    | cons c rest =>
      have hc : pyIsSpace c = false := hhead c (by simp)
      rw [collapseAux_cons_not_space c hc rest false]
      cases rest with
      | nil => exact Chunk.one c hc
      | cons d rest' =>
        have hlast' : ∀ e, (d :: rest').getLast? = some e → pyIsSpace e = false := by
          intro e he
          exact hlast e (by rw [List.getLast?_cons_cons]; exact he)
        by_cases hd : pyIsSpace d = true
        · have hrne : rest' ≠ [] := by
            intro he
            subst he
            have := hlast' d (by simp)
            rw [this] at hd
            cases hd
          have hstep : collapseAux (d :: rest') false
              = ' ' :: collapseAux (rest'.dropWhile pyIsSpace) false := by
            rw [show collapseAux (d :: rest') false
                = ' ' :: collapseAux rest' true from by simp [collapseAux, hd]]
            rw [collapseAux_true_dropWhile rest']
          rw [hstep]
          have hwne : rest'.dropWhile pyIsSpace ≠ [] := by
            intro hw
            have hall := List.dropWhile_eq_nil_iff.mp hw
            obtain ⟨g, hg⟩ := Option.isSome_iff_exists.mp
              (by rw [List.getLast?_isSome]; exact hrne :
                rest'.getLast?.isSome)
            have hgsp := hall g (List.mem_of_mem_getLast? hg)
            have := hlast' g (by rw [getLast?_cons_of_ne_nil d rest' hrne]; exact hg)
            rw [this] at hgsp
            cases hgsp
          have hwhead : ∀ e, (rest'.dropWhile pyIsSpace).head? = some e →
              pyIsSpace e = false :=
            fun e he => head?_dropWhile_false pyIsSpace rest' e he
          have hwlast : ∀ e, (rest'.dropWhile pyIsSpace).getLast? = some e →
              pyIsSpace e = false := by
            intro e he
            rw [getLast?_dropWhile pyIsSpace rest' hwne] at he
            exact hlast' e (by rw [getLast?_cons_of_ne_nil d rest' hrne]; exact he)
          have hwlen : (rest'.dropWhile pyIsSpace).length ≤ n := by
            have h1 : (rest'.dropWhile pyIsSpace).length ≤ rest'.length :=
              length_dropWhile_le pyIsSpace rest' 
            simp only [List.length_cons] at hlen
            omega
          exact Chunk.consSp c hc _
            (ih (rest'.dropWhile pyIsSpace) hwlen hwne hwhead hwlast)
        · have hdf : pyIsSpace d = false := by simpa using hd
          have hdlen : (d :: rest').length ≤ n := by
            simp only [List.length_cons] at hlen ⊢
            omega
          refine Chunk.cons c hc _ (ih (d :: rest') hdlen (by simp) ?_ hlast')
          intro e he
          rw [List.head?_cons] at he
          cases he
          exact hdf

theorem normalize_chunk (s : String) :
    normalizeText s = "" ∨ Chunk (normalizeText s).data := by
  have hdata : (normalizeText s).data = collapseAux (stripL s.data) false := rfl
  cases hs : stripL s.data with
  | nil =>
    left
    apply String.ext
    rw [hdata, hs]
    rfl
  | cons a t =>
    rcases stripL_ends s.data with h | ⟨hh, hl⟩
    · rw [h] at hs
      cases hs
    · right
      rw [hdata]
      exact collapse_chunk_of_ends (stripL s.data).length (stripL s.data) le_rfl
        (by rw [hs]; simp) hh hl

theorem pyJoin_data (sep : String) : ∀ F : List String,
    (pyJoin sep F).data = joinL sep.data (F.map String.data)
  | [] => rfl
  | [x] => rfl
  | x :: y :: rest => by
    show ((x ++ sep) ++ pyJoin sep (y :: rest)).data = _
    rw [String.data_append, String.data_append, pyJoin_data sep (y :: rest)]
    rfl

theorem joinL_head : ∀ L : List (List Char), L ≠ [] → (∀ u ∈ L, Chunk u) →
    ∃ c w, joinL ['\n', '\n'] L = c :: w ∧ pyIsSpace c = false := by
  intro L hne hch
  cases L with
  | nil => exact absurd rfl hne
  | cons x rest =>
    obtain ⟨c, u', hx, hc⟩ := chunk_head x (hch x (by simp))
    cases rest with
    | nil =>
      refine ⟨c, u', ?_, hc⟩
      show x = c :: u'
      exact hx
    | cons y rest' =>
      refine ⟨c, u' ++ (['\n', '\n'] ++ joinL ['\n', '\n'] (y :: rest')), ?_, hc⟩
      show (x ++ ['\n', '\n']) ++ joinL ['\n', '\n'] (y :: rest') = _
      rw [hx]
      simp [List.append_assoc]

theorem joinL_last : ∀ L : List (List Char), L ≠ [] → (∀ u ∈ L, Chunk u) →
    ∀ c, (joinL ['\n', '\n'] L).getLast? = some c → pyIsSpace c = false := by
  intro L
  induction L with
  | nil =>
    intro hne _
    exact absurd rfl hne
  | cons x rest ih =>
    intro _ hch c hc
    cases rest with
    | nil =>
      exact chunk_getLast x (hch x (by simp)) c hc
    | cons y rest' =>
      have hchrest : ∀ u ∈ y :: rest', Chunk u := fun u hu => hch u (by simp [hu])
      have hjne : joinL ['\n', '\n'] (y :: rest') ≠ [] := by
        obtain ⟨d, w, hw, _⟩ := joinL_head (y :: rest') (by simp) hchrest
        rw [hw]
        simp
      have hrw : (joinL ['\n', '\n'] (x :: y :: rest')).getLast?
          = (joinL ['\n', '\n'] (y :: rest')).getLast? := by
        show ((x ++ ['\n', '\n']) ++ joinL ['\n', '\n'] (y :: rest')).getLast? = _
        exact List.getLast?_append_of_ne_nil _ hjne
      rw [hrw] at hc
      exact ih (by simp) hchrest c hc

theorem joinL_collapse : ∀ L : List (List Char), L ≠ [] → (∀ u ∈ L, Chunk u) →
    collapseAux (joinL ['\n', '\n'] L) false = joinL [' '] L := by
  intro L
  induction L with
  | nil =>
    intro hne _
    exact absurd rfl hne
  | cons x rest ih =>
    intro _ hch
    cases rest with
    | nil =>
      show collapseAux x false = x
      exact collapse_chunk x (hch x (by simp))
    | cons y rest' =>
      have hchx := hch x (by simp)
      have hchrest : ∀ u ∈ y :: rest', Chunk u := fun u hu => hch u (by simp [hu])
      obtain ⟨d, w, hw, hd⟩ := joinL_head (y :: rest') (by simp) hchrest
      show collapseAux ((x ++ ['\n', '\n']) ++ joinL ['\n', '\n'] (y :: rest')) false
          = (x ++ [' ']) ++ joinL [' '] (y :: rest')
      rw [List.append_assoc, collapse_chunk_append x hchx]
      have h2 : collapseAux (['\n', '\n'] ++ joinL ['\n', '\n'] (y :: rest')) false
          = ' ' :: collapseAux (joinL ['\n', '\n'] (y :: rest')) true := rfl
      rw [h2]
      have h3 : collapseAux (joinL ['\n', '\n'] (y :: rest')) true
          = collapseAux (joinL ['\n', '\n'] (y :: rest')) false := by
        rw [hw, collapseAux_cons_not_space d hd w true,
          collapseAux_cons_not_space d hd w false]
      rw [h3, ih (by simp) hchrest]
      simp

theorem joinL_chunk : ∀ L : List (List Char), L ≠ [] → (∀ u ∈ L, Chunk u) →
    Chunk (joinL [' '] L) := by
  intro L
  induction L with
  | nil =>
    intro hne _
    exact absurd rfl hne
  | cons x rest ih =>
    intro _ hch
    cases rest with
    | nil => exact hch x (by simp)
    | cons y rest' =>
      have h := chunk_append_space x (hch x (by simp)) _
        (ih (by simp) (fun u hu => hch u (by simp [hu])))
      show Chunk ((x ++ [' ']) ++ joinL [' '] (y :: rest'))
      rw [List.append_assoc]
      exact h

mutual
theorem collect_blocks_normal : (n : Node) →
    ∀ x ∈ collect_blocks n, ∃ s, x = normalizeText s
  | .txt s => by
    intro x hx
    simp [collect_blocks] at hx
  | .el tag attrs children => by
    intro x hx
    simp only [collect_blocks] at hx
    rcases List.mem_append.mp hx with hx | hx
    · by_cases htag : CONTENT_TAGS.contains tag = true
      · rw [if_pos htag] at hx
        by_cases ht : normalizeText (textContentList children) = ""
        · rw [if_pos ht] at hx
          simp at hx
        · rw [if_neg ht] at hx
          have hx' : x = normalizeText (textContentList children) := by
            simpa using hx
          exact ⟨textContentList children, hx'⟩
      · rw [if_neg htag] at hx
        simp at hx
    · exact collect_blocks_list_normal children x hx
termination_by structural n => n

theorem collect_blocks_list_normal : (l : List Node) →
    ∀ x ∈ collect_blocks_list l, ∃ s, x = normalizeText s
  | [] => by
    intro x hx
    simp [collect_blocks_list] at hx
  | c :: rest => by
    intro x hx
    simp only [collect_blocks_list] at hx
    rcases List.mem_append.mp hx with hx | hx
    · exact collect_blocks_normal c x hx
    · exact collect_blocks_list_normal rest x hx
termination_by structural l => l
end

/-- Every body returned by extract_text_content is the double-newline
join of a non-empty list of normal-form blocks and is at least
MIN_BODY_LENGTH characters long. -/
theorem extract_text_content_shape (t : Node) (b : String)
    (hex : extract_text_content t = some b) :
    ∃ F : List String, F ≠ [] ∧ (∀ x ∈ F, Chunk x.data)
      ∧ b = pyJoin "\n\n" F ∧ 100 ≤ b.length := by
  unfold extract_text_content at hex
  dsimp only at hex
  split at hex
  · cases hex
  · next hcond =>
    injection hex with hbody
    refine ⟨(collect_blocks (remove_noise t)).filter
      (fun x => MIN_BLOCK_LENGTH ≤ x.length), ?_, ?_, hbody.symm, ?_⟩
    · intro hF
      rw [hF] at hcond
      simp [pyJoin, MIN_BODY_LENGTH] at hcond
    · intro x hxF
      obtain ⟨hxb, hxlen⟩ := List.mem_filter.mp hxF
      obtain ⟨s, hxs⟩ := collect_blocks_normal (remove_noise t) x hxb
      have hxne : x ≠ "" := by
        intro he
        rw [he] at hxlen
        simp [MIN_BLOCK_LENGTH] at hxlen
      rcases normalize_chunk s with h | h
      · rw [hxs] at hxne
        exact absurd h hxne
      · rw [hxs]
        exact h
    · rw [← hbody]
      simp only [MIN_BODY_LENGTH] at hcond
      omega

/-- Claim C7 (amended): when a body extracted by extract_text_content
still has at least MIN_BODY_LENGTH characters after its whitespace is
collapsed, re-extracting the body re-wrapped in html body p yields
exactly the collapsed body, which equals the original modulo whitespace
normalisation; when the collapsed body falls below the threshold the
second extraction returns null instead. -/
theorem c7_idempotence (t : Node) (b : String)
    (hex : extract_text_content t = some b)
    (hlen : 100 ≤ (pyCollapse b).length) :
    extract_text_content (rewrapDoc b) = some (pyCollapse b)
    ∧ normalizeText (pyCollapse b) = normalizeText b := by
  obtain ⟨F, hFne, hFch, hb, hb100⟩ := extract_text_content_shape t b hex
  have hmap : ∀ u ∈ F.map String.data, Chunk u := by
    intro u hu
    obtain ⟨x, hxF, hxu⟩ := List.mem_map.mp hu
    rw [← hxu]
    exact hFch x hxF
  have hmapne : F.map String.data ≠ [] := by
    intro h
    exact hFne (List.map_eq_nil_iff.mp h)
  have hbdata : b.data = joinL ['\n', '\n'] (F.map String.data) := by
    rw [hb, pyJoin_data]
  have hstrip : stripL b.data = b.data := by
    rw [hbdata]
    obtain ⟨c, w, hw, hc⟩ := joinL_head (F.map String.data) hmapne hmap
    apply stripL_eq_self_of_ends
    · intro e he
      rw [hw, List.head?_cons] at he
      injection he with hee
      rw [← hee]
      exact hc
    · exact joinL_last (F.map String.data) hmapne hmap
  have hpystrip : pyStrip b = b := by
    apply String.ext
    show stripL b.data = b.data
    exact hstrip
  have hcollapse_data : (pyCollapse b).data = joinL [' '] (F.map String.data) := by
    show collapseAux b.data false = _
    rw [hbdata]
    exact joinL_collapse (F.map String.data) hmapne hmap
  have hchunkC : Chunk (pyCollapse b).data := by
    rw [hcollapse_data]
    exact joinL_chunk (F.map String.data) hmapne hmap
  have hnormb : normalizeText b = pyCollapse b := by
    unfold normalizeText
    rw [hpystrip]
  have hstripC : pyStrip (pyCollapse b) = pyCollapse b := by
    apply String.ext
    show stripL (pyCollapse b).data = (pyCollapse b).data
    exact chunk_stripL _ hchunkC
  have hcollapseC : pyCollapse (pyCollapse b) = pyCollapse b := by
    apply String.ext
    show collapseAux (pyCollapse b).data false = (pyCollapse b).data
    exact collapse_chunk _ hchunkC
  have hnormC : normalizeText (pyCollapse b) = pyCollapse b := by
    unfold normalizeText
    rw [hstripC, hcollapseC]
  refine ⟨?_, by rw [hnormC, hnormb]⟩
  have hcne : pyCollapse b ≠ "" := by
    intro he
    rw [he] at hlen
    simp at hlen
  have hkb : ∀ l, keepChild (Node.el "body" [] l) = true := fun l => by
    simp only [keepChild]
    decide
  have hkp : ∀ l, keepChild (Node.el "p" [] l) = true := fun l => by
    simp only [keepChild]
    decide
  have hkt : ∀ s, keepChild (Node.txt s) = true := fun s => rfl
  have h1 : remove_noise (rewrapDoc b) = rewrapDoc b := by
    simp only [rewrapDoc, remove_noise, remove_noise_list, hkb, hkp, hkt]
    simp
  have hc1 : CONTENT_TAGS.contains "html" = false := by decide
  have hc2 : CONTENT_TAGS.contains "body" = false := by decide
  have hc3 : CONTENT_TAGS.contains "p" = true := by decide
  have h2 : collect_blocks (rewrapDoc b) = [pyCollapse b] := by
    simp only [rewrapDoc, collect_blocks, collect_blocks_list, textContent,
      textContentList, hc1, hc2, hc3, str_append_empty, hnormb]
    simp [hcne]
  unfold extract_text_content
  rw [rewrapDoc] at h1 h2 ⊢
  rw [h1]
  have h15 : decide (MIN_BLOCK_LENGTH ≤ (pyCollapse b).length) = true := by
    simp only [decide_eq_true_eq, MIN_BLOCK_LENGTH]
    omega
  have hge : ¬ (pyCollapse b).length < MIN_BODY_LENGTH := by
    simp only [MIN_BODY_LENGTH]
    omega
  simp only [h2, List.filter, h15, pyJoin]
  simp [hge]

set_option maxRecDepth 100000 in
/-- Claim C7 (counterexample): a document of two 49-character paragraphs
extracts to a 100-character body, but re-wrapping that body in html body
p and extracting again yields null, because collapsing the two-character
block separator to one space drops the collapsed body to 99 characters,
below MIN_BODY_LENGTH. -/
theorem c7_counterexample :
    extract_text_content c7tree = some c7body
    ∧ c7body.length = 100
    ∧ extract_text_content (rewrapDoc c7body) = none := by
  refine ⟨?_, ?_, ?_⟩ <;> decide

set_option maxRecDepth 100000 in
/-- Claim C7 witness: a single-paragraph body survives re-extraction
unchanged. -/
theorem c7_witness :
    extract_text_content (rewrapDoc zPara) = some (pyCollapse zPara)
    ∧ normalizeText (pyCollapse zPara) = normalizeText zPara :=
  c7_idempotence c7treeOk zPara (by decide) (by decide)

end DazWebExtract
